import Mathlib

set_option maxHeartbeats 1000000
set_option maxRecDepth 4000

/-!
Verification development for the xml_stream streaming XML tokenizer.

The definitions below are a shallow embedding of `src/parser.rs`.  The Rust
parser reads one byte at a time (`buf[0] as char` turns the byte value into
the Unicode code point of the same value), updates 1-based line/column
counters, and feeds the character to a finite state machine.  We model:

  * the byte source as an explicit `List Nat` of byte values,
  * Rust `String` buffers as `List Char` (every stored char has code point
    below 256, so the only place the byte length of the buffer matters -
    `truncate(len - 2)` in the CDATA/comment handlers - removes exactly the
    two one-byte ASCII characters it removes in Rust),
  * `HashMap<String, String>` namespace frames as association lists with
    replace-on-insert semantics (one entry per key, like the hash map),
  * the `AttrMap` attribute collection as an insertion-ordered association
    list with replace-on-insert semantics (the contents agree with the
    default hash map mode; only iteration order differs, which no claim
    below depends on for more than a single entry),
  * the `u8` field `level` as a `Nat` reduced `% 256` at every increment,
  * `u32` line/col counters as `Nat` (wrapping would need more than 2^32
    input bytes and is not modelled).

Rust code panics (`expect`/`unreachable`) only on internal invariant
violations (for example `InTag` with no pending tag name); those states are
unreachable from the initial parser.  The embedding returns a harmless
default there instead of modelling the abort.
-/

/-- Kinds of parser errors (`ParserErrorKind` in src/parser.rs). -/
inductive ParserErrorKind where
  | UnboundNsPrefixInTagName
  | UnboundNsPrefixInAttributeName
  | SpaceInAttributeName
  | DuplicateAttribute
  | UndelimitedAttribute
  | InvalidEntity
  | InvalidCdataStart
  | InvalidCommentStart
  | InvalidCommentContent
  | InvalidDoctype
  | ExpectedTagClose
  | ExpectedLwsOrTagClose
  | MalformedXml
deriving DecidableEq, Repr

/-- The error value produced for erroneous XML (`ParserError` in src/parser.rs). -/
structure ParserError where
  line : Nat
  col : Nat
  kind : ParserErrorKind
deriving DecidableEq, Repr

/-- One namespace frame: a prefix-to-URI map (`HashMap<String, String>`),
modelled as an association list with at most one entry per key. -/
abbrev Frame := List (String × String)

/-- First binding of a key in a frame (`HashMap::get`). -/
def frameGet : Frame → String → Option String
  | [], _ => none
  | (k, v) :: rest, q => if k = q then some v else frameGet rest q

/-- `HashMap::insert`: replace the binding if the key exists, else add it. -/
def frameBind : Frame → String → String → Frame
  | [], k, v => [(k, v)]
  | (k0, v0) :: rest, k, v =>
      if k0 = k then (k, v) :: rest else (k0, v0) :: frameBind rest k v

/-- The attribute collection of a start tag (`AttrMap<(String, Option<String>), String>`). -/
abbrev AttrMap := List ((String × Option String) × String)

/-- `AttrMap::insert`: returns the previous value for the key (if any) together
with the updated map. -/
def attrInsert : AttrMap → (String × Option String) → String → Option String × AttrMap
  | [], k, v => (none, [(k, v)])
  | (k0, v0) :: rest, k, v =>
      if k0 = k then (some v0, (k, v) :: rest)
      else
        let r := attrInsert rest k v
        (r.1, (k0, v0) :: r.2)

/-- A start-tag event payload (`StartTag` in the crate root; its `prefix`
field is called `pfx` here because `prefix` is a Lean keyword). -/
structure StartTag where
  name : String
  ns : Option String
  pfx : Option String
  attributes : AttrMap
deriving DecidableEq, Repr

/-- An end-tag event payload (`EndTag` in the crate root). -/
structure EndTag where
  name : String
  ns : Option String
  pfx : Option String
deriving DecidableEq, Repr

/-- Events returned by the parser (`Event` in src/parser.rs). -/
inductive Event where
  | PI (s : String)
  | ElementStart (t : StartTag)
  | ElementEnd (t : EndTag)
  | Characters (s : String)
  | CDATA (s : String)
  | Comment (s : String)
deriving DecidableEq, Repr

/-- The internal states of the tokenizer (`State` in src/parser.rs). -/
inductive State where
  | OutsideTag
  | TagOpened
  | InProcessingInstructions
  | InTagName
  | InCloseTagName
  | InTag
  | InAttrName
  | InAttrValue
  | ExpectDelimiter
  | ExpectClose
  | ExpectSpaceOrClose
  | InExclamationMark
  | InCDATAOpening
  | InCDATA
  | InCommentOpening
  | InComment1
  | InComment2
  | InDoctype
deriving DecidableEq, Repr

/-- The parser state (`Parser` in src/parser.rs, minus the byte source,
which the driver `run` receives explicitly). -/
structure Parser where
  line : Nat
  col : Nat
  has_error : Bool
  buf : List Char
  namespaces : List Frame
  attributes : List (String × Option String × String)
  st : State
  name : Option (Option String × String)
  attr : Option (Option String × String)
  delim : Option Char
  level : Nat
deriving DecidableEq, Repr

/-- The root namespace frame pre-seeded by `Parser::new`. -/
def initFrame : Frame :=
  [("xml", "http://www.w3.org/XML/1998/namespace"),
   ("xmlns", "http://www.w3.org/2000/xmlns/")]

/-- `Parser::new`: the initial parser state (1-based line, column 0 before
any byte is consumed). -/
def pInit : Parser :=
  { line := 1, col := 0, has_error := false, buf := [],
    namespaces := [initFrame], attributes := [], st := State.OutsideTag,
    name := none, attr := none, delim := none, level := 0 }

/-- `parse_qname`: split a qualified name at its first colon. -/
def parse_qname (q : List Char) : Option String × String :=
  match q.findIdx? (fun c => c = ':') with
  | some i => (some (String.mk (q.take i)), String.mk (q.drop (i + 1)))
  | none => (none, String.mk q)

/-- `Parser::namespace_for_prefix`: scan frames innermost-first; the first
frame containing the prefix decides, and an empty URI resolves to `none`.
The innermost frame is the head of the list (the Rust `Vec` is scanned from
its end, where frames are pushed). -/
def namespaceForPfx : List Frame → String → Option String
  | [], _ => none
  | f :: rest, q =>
      match frameGet f q with
      | some u => if u = "" then none else some u
      | none => namespaceForPfx rest q

/-- The repeated tag-name resolution block of `in_tag_name`,
`in_close_tag_name`, `in_tag` and `expect_close`: an unprefixed name takes
the default-namespace lookup result as is, a prefixed name whose prefix is
unbound is an `UnboundNsPrefixInTagName` error. -/
def resolveTagNs (stack : List Frame) (pfx : Option String) :
    Except ParserErrorKind (Option String) :=
  match pfx with
  | none => Except.ok (namespaceForPfx stack "")
  | some pr =>
      match namespaceForPfx stack pr with
      | none => Except.error ParserErrorKind.UnboundNsPrefixInTagName
      | some u => Except.ok (some u)

/-- The per-attribute namespace resolution of `in_tag`: an unprefixed
attribute has no namespace, a prefixed one whose prefix is unbound is an
`UnboundNsPrefixInAttributeName` error. -/
def attrNsRes (stack : List Frame) (pfx : Option String) :
    Except ParserErrorKind (Option String) :=
  match pfx with
  | none => Except.ok none
  | some pr =>
      match namespaceForPfx stack pr with
      | none => Except.error ParserErrorKind.UnboundNsPrefixInAttributeName
      | some u => Except.ok (some u)

/-- The attribute-assembly loop of `in_tag`: resolve each provisional
attribute in document order, inserting into the map and failing with
`DuplicateAttribute` when `insert` reports a previous value. -/
def resolveAttrs (stack : List Frame) :
    List (String × Option String × String) → AttrMap →
    Except ParserErrorKind AttrMap
  | [], m => Except.ok m
  | (nm, pfx, v) :: rest, m =>
      match attrNsRes stack pfx with
      | Except.error k => Except.error k
      | Except.ok ns =>
          let r := attrInsert m (nm, ns) v
          if r.1.isSome then Except.error ParserErrorKind.DuplicateAttribute
          else resolveAttrs stack rest r.2

/-- Hexadecimal digit test for numeric character references. -/
def isHexDigitCh (c : Char) : Bool :=
  c.isDigit || (decide ('a' ≤ c) && decide (c ≤ 'f')) ||
    (decide ('A' ≤ c) && decide (c ≤ 'F'))

/-- Value of a hexadecimal digit. -/
def hexDigitVal (c : Char) : Nat :=
  if c.isDigit then c.toNat - 48
  else if decide ('a' ≤ c) && decide (c ≤ 'f') then c.toNat - 87
  else c.toNat - 55

/-- Modelled from the spec: decoding of a single entity body (the part of
the crate root `unescape` between an ampersand and a semicolon, lib.rs not
being under src/).  Section 4.1 of the spec: the five predefined named
entities plus decimal and hexadecimal numeric character references; any
other form is a malformed entity. -/
def entityDecode (body : List Char) : Option (List Char) :=
  if body = ['a', 'm', 'p'] then some ['&']
  else if body = ['l', 't'] then some ['<']
  else if body = ['g', 't'] then some ['>']
  else if body = ['a', 'p', 'o', 's'] then some ['\'']
  else if body = ['q', 'u', 'o', 't'] then some ['"']
  else
    match body with
    | '#' :: 'x' :: ds =>
        if ds ≠ [] && ds.all isHexDigitCh then
          some [Char.ofNat (ds.foldl (fun a c => a * 16 + hexDigitVal c) 0)]
        else none
    | '#' :: ds =>
        if ds ≠ [] && ds.all Char.isDigit then
          some [Char.ofNat (ds.foldl (fun a c => a * 10 + (c.toNat - 48)) 0)]
        else none
    | _ => none

/-- Modelled from the spec: the crate root `unescape` (lib.rs is not under
src/).  Every ampersand must start a recognized entity terminated by a
semicolon; everything else passes through unchanged. -/
def unescape : List Char → Option (List Char)
  | [] => some []
  | c :: rest =>
      if c = '&' then
        match rest.findIdx? (fun d => d = ';') with
        | none => none
        | some i =>
            match entityDecode (rest.take i) with
            | none => none
            | some repl =>
                match unescape (rest.drop (i + 1)) with
                | none => none
                | some tail => some (repl ++ tail)
      else
        match unescape rest with
        | none => none
        | some tail => some (c :: tail)
  termination_by l => l.length
  decreasing_by
    · simp only [List.length_drop, List.length_cons]
      omega
    · simp only [List.length_cons]
      omega

/-- `unescape_owned` (src/parser.rs): identity fast path when the text has
no ampersand, otherwise full unescaping. -/
def unescape_owned (l : List Char) : Option (List Char) :=
  if '&' ∈ l then unescape l else some l

/-- Build a `ParserError` at the current position (`Parser::error`). -/
def perror (p : Parser) (k : ParserErrorKind) : ParserError :=
  { line := p.line, col := p.col, kind := k }

/-- Linear white space, the `' ' | '\t' | '\r' | '\n'` arms of the handlers. -/
def lwsChar (c : Char) : Bool :=
  c = ' ' || c = '\t' || c = '\r' || c = '\n'

/-- `Parser::outside_tag`. -/
def outside_tag (p : Parser) (c : Char) :
    Except ParserError (Option Event × Parser) :=
  if c = '<' then
    if p.buf = [] then Except.ok (none, { p with st := State.TagOpened })
    else
      match unescape_owned p.buf with
      | some s =>
          Except.ok (some (Event.Characters (String.mk s)),
            { p with st := State.TagOpened, buf := [] })
      | none => Except.error (perror p ParserErrorKind.InvalidEntity)
  else Except.ok (none, { p with buf := p.buf ++ [c] })

/-- `Parser::tag_opened`. -/
def tag_opened (p : Parser) (c : Char) :
    Except ParserError (Option Event × Parser) :=
  if c = '?' then Except.ok (none, { p with st := State.InProcessingInstructions })
  else if c = '!' then Except.ok (none, { p with st := State.InExclamationMark })
  else if c = '/' then Except.ok (none, { p with st := State.InCloseTagName })
  else Except.ok (none, { p with buf := p.buf ++ [c], st := State.InTagName })

/-- `Parser::in_processing_instructions`. -/
def in_processing_instructions (p : Parser) (c : Char) :
    Except ParserError (Option Event × Parser) :=
  if c = '?' then Except.ok (none, { p with level := 1, buf := p.buf ++ ['?'] })
  else if c = '>' ∧ p.level = 1 then
    Except.ok (some (Event.PI (String.mk p.buf.dropLast)),
      { p with level := 0, st := State.OutsideTag, buf := [] })
  else Except.ok (none, { p with buf := p.buf ++ [c] })

/-- `Parser::in_tag_name`: on `/` or `>` the name is resolved against the
current stack and only then is the new (empty) frame pushed; on white space
the new frame is pushed and attribute scanning starts. -/
def in_tag_name (p : Parser) (c : Char) :
    Except ParserError (Option Event × Parser) :=
  if c = '/' ∨ c = '>' then
    match resolveTagNs p.namespaces (parse_qname p.buf).1 with
    | Except.error k => Except.error (perror p k)
    | Except.ok ns =>
        if c = '/' then
          Except.ok (some (Event.ElementStart
              { name := (parse_qname p.buf).2, ns := ns,
                pfx := (parse_qname p.buf).1, attributes := [] }),
            { p with buf := [], namespaces := [] :: p.namespaces,
                     name := some (parse_qname p.buf), st := State.ExpectClose })
        else
          Except.ok (some (Event.ElementStart
              { name := (parse_qname p.buf).2, ns := ns,
                pfx := (parse_qname p.buf).1, attributes := [] }),
            { p with buf := [], namespaces := [] :: p.namespaces,
                     st := State.OutsideTag })
  else if lwsChar c then
    Except.ok (none, { p with namespaces := [] :: p.namespaces,
                              name := some (parse_qname p.buf), buf := [],
                              st := State.InTag })
  else Except.ok (none, { p with buf := p.buf ++ [c] })

/-- `Parser::in_close_tag_name`: the name is resolved against the stack
including the frame about to be popped, and the pop is unconditional. -/
def in_close_tag_name (p : Parser) (c : Char) :
    Except ParserError (Option Event × Parser) :=
  if lwsChar c || c = '>' then
    match resolveTagNs p.namespaces (parse_qname p.buf).1 with
    | Except.error k => Except.error (perror p k)
    | Except.ok ns =>
        Except.ok (some (Event.ElementEnd
            { name := (parse_qname p.buf).2, ns := ns,
              pfx := (parse_qname p.buf).1 }),
          { p with buf := [], namespaces := p.namespaces.tail,
                   st := if c = '>' then State.OutsideTag
                         else State.ExpectSpaceOrClose })
  else Except.ok (none, { p with buf := p.buf ++ [c] })

/-- `Parser::in_tag`: on `/` or `>` the pending name is resolved against
the full current stack (whose innermost frame holds the xmlns declarations
made by this very tag), the provisional attributes are resolved and
assembled, and the `ElementStart` is emitted.  The `expect` on a missing
pending name is unreachable from the initial state; `(none, "")` stands in
for the Rust panic. -/
def in_tag (p : Parser) (c : Char) :
    Except ParserError (Option Event × Parser) :=
  if c = '/' ∨ c = '>' then
    match resolveTagNs p.namespaces (p.name.getD (none, "")).1 with
    | Except.error k => Except.error (perror p k)
    | Except.ok ns =>
        match resolveAttrs p.namespaces p.attributes [] with
        | Except.error k => Except.error (perror p k)
        | Except.ok amap =>
            if c = '/' then
              Except.ok (some (Event.ElementStart
                  { name := (p.name.getD (none, "")).2, ns := ns,
                    pfx := (p.name.getD (none, "")).1, attributes := amap }),
                { p with attributes := [],
                         name := some (p.name.getD (none, "")),
                         st := State.ExpectClose })
            else
              Except.ok (some (Event.ElementStart
                  { name := (p.name.getD (none, "")).2, ns := ns,
                    pfx := (p.name.getD (none, "")).1, attributes := amap }),
                { p with attributes := [], name := none,
                         st := State.OutsideTag })
  else if lwsChar c then Except.ok (none, p)
  else Except.ok (none, { p with buf := p.buf ++ [c], st := State.InAttrName })

/-- `Parser::in_attr_name`. -/
def in_attr_name (p : Parser) (c : Char) :
    Except ParserError (Option Event × Parser) :=
  if c = '=' then
    Except.ok (none, { p with level := 0, attr := some (parse_qname p.buf),
                              buf := [], st := State.ExpectDelimiter })
  else if lwsChar c then Except.ok (none, { p with level := 1 })
  else if p.level = 0 then Except.ok (none, { p with buf := p.buf ++ [c] })
  else Except.error (perror p ParserErrorKind.SpaceInAttributeName)

/-- `Parser::in_attr_value`: on the matching delimiter the value is
unescaped, `xmlns` / `xmlns:*` declarations are bound in the innermost
frame, and the provisional attribute is pushed.  The `expect`s on a missing
delimiter, missing attribute name or empty namespace stack are unreachable
from the initial state; the embedding leaves the state unchanged in the
empty-stack case instead of modelling the panic. -/
def in_attr_value (p : Parser) (c : Char) :
    Except ParserError (Option Event × Parser) :=
  if p.delim = some c then
    match unescape_owned p.buf with
    | none => Except.error (perror p ParserErrorKind.InvalidEntity)
    | some v =>
        let nm := (p.attr.getD (none, "")).2
        let pfx := (p.attr.getD (none, "")).1
        let ns' :=
          match p.namespaces with
          | [] => p.namespaces
          | f :: rest =>
              match pfx with
              | none => if nm = "xmlns" then frameBind f "" (String.mk v) :: rest
                        else f :: rest
              | some pr => if pr = "xmlns" then frameBind f nm (String.mk v) :: rest
                           else f :: rest
        Except.ok (none,
          { p with delim := none, st := State.InTag, attr := none, buf := [],
                   namespaces := ns',
                   attributes := p.attributes ++ [(nm, pfx, String.mk v)] })
  else Except.ok (none, { p with buf := p.buf ++ [c] })

/-- `Parser::expect_delimiter`. -/
def expect_delimiter (p : Parser) (c : Char) :
    Except ParserError (Option Event × Parser) :=
  if c = '"' ∨ c = '\'' then
    Except.ok (none, { p with delim := some c, st := State.InAttrValue })
  else if lwsChar c then Except.ok (none, p)
  else Except.error (perror p ParserErrorKind.UndelimitedAttribute)

/-- `Parser::expect_close`: the `>` of an empty-element tag emits the
queued `ElementEnd`, resolving the name against the stack including the
frame about to be popped. -/
def expect_close (p : Parser) (c : Char) :
    Except ParserError (Option Event × Parser) :=
  if c = '>' then
    match resolveTagNs p.namespaces (p.name.getD (none, "")).1 with
    | Except.error k => Except.error (perror p k)
    | Except.ok ns =>
        Except.ok (some (Event.ElementEnd
            { name := (p.name.getD (none, "")).2, ns := ns,
              pfx := (p.name.getD (none, "")).1 }),
          { p with name := none, namespaces := p.namespaces.tail,
                   st := State.OutsideTag })
  else Except.error (perror p ParserErrorKind.ExpectedTagClose)

/-- `Parser::expect_space_or_close`. -/
def expect_space_or_close (p : Parser) (c : Char) :
    Except ParserError (Option Event × Parser) :=
  if lwsChar c then Except.ok (none, p)
  else if c = '>' then Except.ok (none, { p with st := State.OutsideTag })
  else Except.error (perror p ParserErrorKind.ExpectedLwsOrTagClose)

/-- `Parser::in_exclamation_mark`. -/
def in_exclamation_mark (p : Parser) (c : Char) :
    Except ParserError (Option Event × Parser) :=
  if c = '-' then Except.ok (none, { p with st := State.InCommentOpening })
  else if c = '[' then Except.ok (none, { p with st := State.InCDATAOpening })
  else if c = 'D' then Except.ok (none, { p with st := State.InDoctype })
  else Except.error (perror p ParserErrorKind.MalformedXml)

/-- The literal pattern matched by `in_cdata_opening`. -/
def CDATA_PATTERN : List Char := ['C', 'D', 'A', 'T', 'A', '[']

/-- `Parser::in_cdata_opening` (the out-of-range index on `level > 5` is
unreachable in this state; `getD` supplies a harmless default). -/
def in_cdata_opening (p : Parser) (c : Char) :
    Except ParserError (Option Event × Parser) :=
  if c = CDATA_PATTERN.getD p.level ' ' then
    if (p.level + 1) % 256 = 6 then
      Except.ok (none, { p with level := 0, st := State.InCDATA })
    else Except.ok (none, { p with level := (p.level + 1) % 256 })
  else Except.error (perror p ParserErrorKind.InvalidCdataStart)

/-- `Parser::in_cdata`: `level` counts the current run of `]` characters
(a `u8`, hence `% 256`); a `>` with `level >= 2` closes the section,
truncating away the final two bytes of the buffer (the two `]` of the
terminator, each a one-byte character). -/
def in_cdata (p : Parser) (c : Char) :
    Except ParserError (Option Event × Parser) :=
  if c = ']' then
    Except.ok (none, { p with buf := p.buf ++ [']'], level := (p.level + 1) % 256 })
  else if c = '>' ∧ 2 ≤ p.level then
    Except.ok (some (Event.CDATA (String.mk (p.buf.take (p.buf.length - 2)))),
      { p with st := State.OutsideTag, level := 0, buf := [] })
  else Except.ok (none, { p with buf := p.buf ++ [c], level := 0 })

/-- `Parser::in_comment_opening`. -/
def in_comment_opening (p : Parser) (c : Char) :
    Except ParserError (Option Event × Parser) :=
  if c = '-' then Except.ok (none, { p with st := State.InComment1, level := 0 })
  else Except.error (perror p ParserErrorKind.InvalidCommentStart)

/-- `Parser::in_comment1`. -/
def in_comment1 (p : Parser) (c : Char) :
    Except ParserError (Option Event × Parser) :=
  if (if c = '-' then (p.level + 1) % 256 else 0) = 2 then
    Except.ok (none, { p with level := 0, st := State.InComment2, buf := p.buf ++ [c] })
  else
    Except.ok (none,
      { p with level := (if c = '-' then (p.level + 1) % 256 else 0),
               buf := p.buf ++ [c] })

/-- `Parser::in_comment2`: truncates away the final two bytes of the
buffer (the two `-` before the closing `>`). -/
def in_comment2 (p : Parser) (c : Char) :
    Except ParserError (Option Event × Parser) :=
  if c = '>' then
    Except.ok (some (Event.Comment (String.mk (p.buf.take (p.buf.length - 2)))),
      { p with st := State.OutsideTag, buf := [] })
  else Except.error (perror p ParserErrorKind.InvalidCommentContent)

/-- The literal pattern matched by `in_doctype`. -/
def DOCTYPE_PATTERN : List Char := ['O', 'C', 'T', 'Y', 'P', 'E']

/-- `Parser::in_doctype`. -/
def in_doctype (p : Parser) (c : Char) :
    Except ParserError (Option Event × Parser) :=
  if p.level ≤ 5 then
    if c = DOCTYPE_PATTERN.getD p.level ' ' then
      Except.ok (none, { p with level := (p.level + 1) % 256 })
    else Except.error (perror p ParserErrorKind.InvalidDoctype)
  else if p.level = 6 then
    if lwsChar c then Except.ok (none, { p with level := (p.level + 1) % 256 })
    else Except.error (perror p ParserErrorKind.InvalidDoctype)
  else if c = '>' then
    Except.ok (none, { p with level := 0, st := State.OutsideTag })
  else Except.ok (none, p)

/-- `Parser::parse_character`: dispatch on the current state. -/
def parse_character (p : Parser) (c : Char) :
    Except ParserError (Option Event × Parser) :=
  match p.st with
  | State.OutsideTag => outside_tag p c
  | State.TagOpened => tag_opened p c
  | State.InProcessingInstructions => in_processing_instructions p c
  | State.InTagName => in_tag_name p c
  | State.InCloseTagName => in_close_tag_name p c
  | State.InTag => in_tag p c
  | State.InAttrName => in_attr_name p c
  | State.InAttrValue => in_attr_value p c
  | State.ExpectDelimiter => expect_delimiter p c
  | State.ExpectClose => expect_close p c
  | State.ExpectSpaceOrClose => expect_space_or_close p c
  | State.InExclamationMark => in_exclamation_mark p c
  | State.InCDATAOpening => in_cdata_opening p c
  | State.InCDATA => in_cdata p c
  | State.InCommentOpening => in_comment_opening p c
  | State.InComment1 => in_comment1 p c
  | State.InComment2 => in_comment2 p c
  | State.InDoctype => in_doctype p c

/-- The byte-to-character decoding of `Iterator::next` for `Parser`:
`buf[0] as char` maps the byte value to the code point of the same value. -/
def byteChar (b : Nat) : Char := Char.ofNat b

/-- Position bookkeeping of `Iterator::next`: a newline bumps the line and
resets the column, every other byte bumps the column. -/
def advance (p : Parser) (c : Char) : Parser :=
  if c = '\n' then { p with line := p.line + 1, col := 0 }
  else { p with col := p.col + 1 }

/-- The event stream produced by repeatedly calling `Iterator::next` on the
parser fed with the given bytes: each byte advances the position and is fed
to `parse_character`; an error sets `has_error`, after which `next` returns
`None` forever (only the `has_error` field of the post-error state matters,
mirroring the fact that the Rust parser is never inspected again). -/
def run : Parser → List Nat → List (Except ParserError Event)
  | _, [] => []
  | p, b :: rest =>
      if p.has_error then []
      else
        match parse_character (advance p (byteChar b)) (byteChar b) with
        | Except.ok (none, p2) => run p2 rest
        | Except.ok (some ev, p2) => Except.ok ev :: run p2 rest
        | Except.error err =>
            Except.error err ::
              run { advance p (byteChar b) with has_error := true } rest

/-- The parser state after feeding the given bytes (same traversal as
`run`, exposing the internal state instead of the events). -/
def runState : Parser → List Nat → Parser
  | p, [] => p
  | p, b :: rest =>
      if p.has_error then p
      else
        match parse_character (advance p (byteChar b)) (byteChar b) with
        | Except.ok (_, p2) => runState p2 rest
        | Except.error _ =>
            runState { advance p (byteChar b) with has_error := true } rest

/-- UTF-8 encoding of one character, used to turn string literals into the
byte sequences the Rust parser reads. -/
def utf8Bytes (c : Char) : List Nat :=
  let n := c.toNat
  if n < 128 then [n]
  else if n < 2048 then [192 ||| (n >>> 6), 128 ||| (n &&& 63)]
  else if n < 65536 then
    [224 ||| (n >>> 12), 128 ||| ((n >>> 6) &&& 63), 128 ||| (n &&& 63)]
  else
    [240 ||| (n >>> 18), 128 ||| ((n >>> 12) &&& 63),
     128 ||| ((n >>> 6) &&& 63), 128 ||| (n &&& 63)]

/-- UTF-8 bytes of a string. -/
def strBytes (s : String) : List Nat := (s.toList.map utf8Bytes).flatten

/-- UTF-8 bytes of an explicit character list (used for inputs containing
single quotes, which cannot appear in string literals here). -/
def charBytes (l : List Char) : List Nat := (l.map utf8Bytes).flatten

/-! ## Helper lemmas -/

/-- After an error the parser behaves as exhausted: a poisoned state yields
no further output whatever bytes remain. -/
theorem run_poisoned (p : Parser) (input : List Nat) (h : p.has_error = true) :
    run p input = [] := by
  cases input with
  | nil => rfl
  | cons b rest => simp [run, h]

/-! ## Claims -/

/-- C2: tokenizing `<foo:a xmlns:foo='urn:foo'/>` produces an
`ElementStart` with local name `a`, resolved namespace `urn:foo`, prefix
`foo`, and exactly one attribute keyed `("foo", xmlns-declaration URI)`
with value `urn:foo`, followed by the matching `ElementEnd`, with no
error.  (The input is spelled as a character list because the file avoids
single quotes inside string literals.) -/
theorem C2_namespaced_selfclosing_events :
    run pInit (charBytes
      ['<', 'f', 'o', 'o', ':', 'a', ' ', 'x', 'm', 'l', 'n', 's', ':',
       'f', 'o', 'o', '=', '\'', 'u', 'r', 'n', ':', 'f', 'o', 'o', '\'',
       '/', '>']) =
    [Except.ok (Event.ElementStart
        { name := "a", ns := some "urn:foo", pfx := some "foo",
          attributes := [(("foo", some "http://www.w3.org/2000/xmlns/"),
                          "urn:foo")] }),
     Except.ok (Event.ElementEnd
        { name := "a", ns := some "urn:foo", pfx := some "foo" })] := by
  rfl

/-- C10: the tokenizer decodes one byte at a time, reading byte value `b`
as the code point `b`; the two UTF-8 bytes `0xC3 0xA9` of the character
`é` (code point 0xE9) therefore come out as the two characters `Ã ©` in
the `Characters` event (one character per byte), and the column counter
counts bytes, reaching 5 after the five bytes of `<a>` plus the two-byte
character. -/
theorem C10_byte_decoding :
    (∀ b : Fin 256, (byteChar b.val).toNat = b.val) ∧
    utf8Bytes (Char.ofNat 233) = [195, 169] ∧
    run pInit (strBytes "<a>" ++ [195, 169] ++ strBytes "</a>") =
      [Except.ok (Event.ElementStart
          { name := "a", ns := none, pfx := none, attributes := [] }),
       Except.ok (Event.Characters
          (String.mk [Char.ofNat 195, Char.ofNat 169])),
       Except.ok (Event.ElementEnd { name := "a", ns := none, pfx := none })] ∧
    (String.mk [Char.ofNat 195, Char.ofNat 169]).length = 2 ∧
    (runState pInit (strBytes "<a>" ++ [195, 169])).col = 5 := by
  exact ⟨by decide, by rfl, by rfl, by rfl, by rfl⟩

/-- C4: once the event stream contains an error, nothing follows it - the
iterator is permanently exhausted after the first `Err`, so no event and
no second error ever appears after an error, for every starting state and
every input byte sequence. -/
theorem C4_error_terminates_stream :
    ∀ (input : List Nat) (p : Parser) (l1 l2 : List (Except ParserError Event))
      (e : ParserError),
      run p input = l1 ++ Except.error e :: l2 → l2 = [] := by
  intro input
  induction input with
  | nil =>
      intro p l1 l2 e h
      rw [run] at h
      cases l1 with
      | nil => exact List.noConfusion h
      | cons a t => exact List.noConfusion h
  | cons b rest ih =>
      intro p l1 l2 e h
      rw [run] at h
      by_cases hp : p.has_error
      · rw [if_pos hp] at h
        cases l1 with
        | nil => exact List.noConfusion h
        | cons a t => exact List.noConfusion h
      · rw [if_neg hp] at h
        split at h
        · exact ih _ l1 l2 e h
        · cases l1 with
          | nil =>
              rw [List.nil_append] at h
              exact Except.noConfusion (List.cons_eq_cons.mp h).1
          | cons a l1' =>
              rw [List.cons_append] at h
              exact ih _ l1' l2 e (List.cons_eq_cons.mp h).2
        · rw [run_poisoned _ _ rfl] at h
          cases l1 with
          | nil =>
              rw [List.nil_append] at h
              exact ((List.cons_eq_cons.mp h).2).symm
          | cons a l1' =>
              rw [List.cons_append] at h
              have h2 := (List.cons_eq_cons.mp h).2
              cases l1' with
              | nil =>
                  rw [List.nil_append] at h2
                  exact List.noConfusion h2
              | cons a2 t2 => exact List.noConfusion h2

/-- C4 witness: the input `<!x` produces a `MalformedXml` error, and the
theorem applies to that concrete run (forcing the empty tail). -/
theorem C4_witness : run pInit (strBytes "<!x") =
      [] ++ Except.error { line := 1, col := 3,
                           kind := ParserErrorKind.MalformedXml } :: [] ∧
    ([] : List (Except ParserError Event)) = [] := by
  constructor
  · rfl
  · exact C4_error_terminates_stream (strBytes "<!x") pInit []
      [] { line := 1, col := 3, kind := ParserErrorKind.MalformedXml }
      (by rfl)

/-- C5: prefix lookup scans frames innermost-first and the first frame
binding the prefix decides, an empty URI there meaning explicitly unbound
(`none`); and the root frame of a fresh parser binds exactly `xml` to the
XML namespace URI and `xmlns` to the XML namespace-declaration URI. -/
theorem C5_ns_lookup :
    (∀ (f : Frame) (rest : List Frame) (q u : String),
        frameGet f q = some u →
        namespaceForPfx (f :: rest) q = if u = "" then none else some u) ∧
    (∀ (f : Frame) (rest : List Frame) (q : String),
        frameGet f q = none →
        namespaceForPfx (f :: rest) q = namespaceForPfx rest q) ∧
    pInit.namespaces = [initFrame] ∧
    frameGet initFrame "xml" = some "http://www.w3.org/XML/1998/namespace" ∧
    frameGet initFrame "xmlns" = some "http://www.w3.org/2000/xmlns/" ∧
    (∀ q : String, q ≠ "xml" → q ≠ "xmlns" → frameGet initFrame q = none) := by
  refine ⟨?_, ?_, rfl, rfl, rfl, ?_⟩
  · intro f rest q u h
    rw [namespaceForPfx, h]
  · intro f rest q h
    rw [namespaceForPfx, h]
  · intro q h1 h2
    have g1 : ¬("xml" = q) := fun h => h1 h.symm
    have g2 : ¬("xmlns" = q) := fun h => h2 h.symm
    simp [initFrame, frameGet, g1, g2]

/-- C5 witness: an explicit unbinding in the innermost frame shadows the
outer stack and resolves to no namespace; the pre-seeded `xml` binding
resolves from the root frame; an unknown prefix is absent from the root
frame. -/
theorem C5_witness :
    namespaceForPfx [[("p", "")], initFrame] "p" = none ∧
    namespaceForPfx [initFrame] "xml" =
      some "http://www.w3.org/XML/1998/namespace" ∧
    frameGet initFrame "foo" = none := by
  refine ⟨?_, ?_, ?_⟩
  · exact C5_ns_lookup.1 [("p", "")] [initFrame] "p" "" (by rfl)
  · have h := C5_ns_lookup.1 initFrame [] "xml"
      "http://www.w3.org/XML/1998/namespace" (by rfl)
    rw [if_neg (by decide)] at h
    exact h
  · exact C5_ns_lookup.2.2.2.2.2 "foo" (by decide) (by decide)

/-- C9: every event emitted while in the close-tag-name state pops exactly
one namespace frame, unconditionally - no matching start tag is required;
concretely, after the bare close tag `</a>` the pre-seeded root frame has
been popped (the stack is empty), and a following `<xml:b/>` fails with
`UnboundNsPrefixInTagName` at line 1, column 11 (the `/`), the pre-seeded
`xml` binding having been lost. -/
theorem C9_close_tag_pops_frame :
    (∀ (p : Parser) (c : Char) (ev : Event) (p' : Parser),
        p.st = State.InCloseTagName →
        parse_character p c = Except.ok (some ev, p') →
        p'.namespaces = p.namespaces.tail) ∧
    (runState pInit (strBytes "</a>")).namespaces = [] ∧
    run pInit (strBytes "</a><xml:b/>") =
      [Except.ok (Event.ElementEnd { name := "a", ns := none, pfx := none }),
       Except.error { line := 1, col := 11,
                      kind := ParserErrorKind.UnboundNsPrefixInTagName }] := by
  refine ⟨?_, by rfl, by rfl⟩
  intro p c ev p' hst h
  simp only [parse_character, hst] at h
  unfold in_close_tag_name at h
  split at h
  · split at h
    · exact Except.noConfusion h
    · injection h with h
      rw [Prod.mk.injEq] at h
      obtain ⟨h1, h2⟩ := h
      subst h2
      rfl
  · injection h with h
    rw [Prod.mk.injEq] at h
    exact Option.noConfusion h.1

/-- C9 witness: the pop lemma applied to a concrete close-tag state built
on the fresh parser (whose stack holds only the root frame). -/
theorem C9_witness :
    ({ pInit with buf := [], namespaces := [initFrame].tail,
                  st := State.OutsideTag } : Parser).namespaces =
      ({ pInit with st := State.InCloseTagName, buf := ['a'] } : Parser).namespaces.tail :=
  C9_close_tag_pops_frame.1
    { pInit with st := State.InCloseTagName, buf := ['a'] } '>'
    (Event.ElementEnd { name := "a", ns := none, pfx := none })
    { pInit with buf := [], namespaces := [initFrame].tail,
                 st := State.OutsideTag }
    rfl (by rfl)

/-- C3 counterexample: the claim predicts that xmlns declarations written
as attributes on a tag are never visible while resolving that tag's own
name, so `<p:b xmlns:p='u'>` - whose prefix `p` is bound nowhere else, as
the first conjunct shows - would have to fail with
`UnboundNsPrefixInTagName`.  The tokenizer instead emits an
`ElementStart` whose resolved namespace is the self-declared `u`: for
tags with an attribute section the tag name is resolved only after the
attributes (and their xmlns declarations) have been processed. -/
theorem C3_counterexample :
    namespaceForPfx pInit.namespaces "p" = none ∧
    run pInit (charBytes
      ['<', 'p', ':', 'b', ' ', 'x', 'm', 'l', 'n', 's', ':', 'p', '=',
       '\'', 'u', '\'', '>']) =
      [Except.ok (Event.ElementStart
          { name := "b", ns := some "u", pfx := some "p",
            attributes := [(("p", some "http://www.w3.org/2000/xmlns/"),
                            "u")] })] :=
  ⟨by rfl, by rfl⟩

/-- C3 (amended): only when a start tag is closed directly from the
tag-name state (`/` or `>` immediately after the name, so the tag has no
attributes) is the name resolved against the stack as it was before the
tag, the new empty frame being pushed only afterwards (first conjunct).
When the tag has an attribute section, xmlns declarations that appear as
attributes are bound in the innermost frame as each value is completed
(third conjunct), and the tag's own name is then resolved against the
full current stack, innermost frame included - so self-declared bindings
ARE visible to the tag's own name, not only to its attributes and
descendants (second conjunct). -/
theorem C3_amended_resolution :
    (∀ (p : Parser) (c : Char) (t : StartTag) (p' : Parser),
        p.st = State.InTagName → c = '/' ∨ c = '>' →
        parse_character p c = Except.ok (some (Event.ElementStart t), p') →
        Except.ok t.ns = resolveTagNs p.namespaces (parse_qname p.buf).1 ∧
        p'.namespaces = [] :: p.namespaces) ∧
    (∀ (p : Parser) (c : Char) (t : StartTag) (p' : Parser),
        p.st = State.InTag → c = '/' ∨ c = '>' →
        parse_character p c = Except.ok (some (Event.ElementStart t), p') →
        Except.ok t.ns = resolveTagNs p.namespaces (p.name.getD (none, "")).1) ∧
    (∀ (p : Parser) (c : Char) (f : Frame) (fs : List Frame) (nm : String)
        (p' : Parser),
        p.st = State.InAttrValue → p.delim = some c →
        p.attr = some (some "xmlns", nm) → p.namespaces = f :: fs →
        ¬ '&' ∈ p.buf →
        parse_character p c = Except.ok (none, p') →
        p'.namespaces = frameBind f nm (String.mk p.buf) :: fs) := by
  refine ⟨?_, ?_, ?_⟩
  · intro p c t p' hst hc h
    simp only [parse_character, hst] at h
    unfold in_tag_name at h
    rw [if_pos hc] at h
    split at h
    · exact Except.noConfusion h
    · rename_i ns heq
      split at h <;>
      · injection h with h
        rw [Prod.mk.injEq] at h
        obtain ⟨h1, h2⟩ := h
        injection h1 with h1
        injection h1 with h1
        subst h1
        subst h2
        exact ⟨heq.symm, rfl⟩
  · intro p c t p' hst hc h
    simp only [parse_character, hst] at h
    unfold in_tag at h
    rw [if_pos hc] at h
    split at h
    · exact Except.noConfusion h
    · rename_i ns heq
      split at h
      · exact Except.noConfusion h
      · split at h <;>
        · injection h with h
          rw [Prod.mk.injEq] at h
          obtain ⟨h1, h2⟩ := h
          injection h1 with h1
          injection h1 with h1
          subst h1
          exact heq.symm
  · intro p c f fs nm p' hst hd hattr hns hbuf h
    simp only [parse_character, hst] at h
    unfold in_attr_value at h
    rw [if_pos hd] at h
    have hu : unescape_owned p.buf = some p.buf := by
      rw [unescape_owned, if_neg hbuf]
    rw [hu] at h
    simp only [hattr, hns, Option.getD, if_true] at h
    injection h with h
    rw [Prod.mk.injEq] at h
    obtain ⟨h1, h2⟩ := h
    subst h2
    rfl

/-- C3 witness: the amended no-attribute path applied to a concrete
tag-name state over the fresh stack. -/
theorem C3_witness :
    Except.ok (({ name := "b", ns := none, pfx := none,
                  attributes := [] } : StartTag)).ns =
      resolveTagNs ({ pInit with st := State.InTagName,
                                 buf := ['b'] } : Parser).namespaces
        (parse_qname ({ pInit with st := State.InTagName,
                                   buf := ['b'] } : Parser).buf).1 ∧
    ({ pInit with buf := [], namespaces := [] :: pInit.namespaces,
                  st := State.OutsideTag } : Parser).namespaces =
      [] :: ({ pInit with st := State.InTagName,
                          buf := ['b'] } : Parser).namespaces :=
  C3_amended_resolution.1 { pInit with st := State.InTagName, buf := ['b'] }
    '>' { name := "b", ns := none, pfx := none, attributes := [] }
    { pInit with buf := [], namespaces := [] :: pInit.namespaces,
                 st := State.OutsideTag }
    rfl (Or.inr rfl) (by rfl)

/-- The keys of an attribute map, in stored order. -/
def amKeys (m : AttrMap) : List (String × Option String) := m.map (fun e => e.1)

/-- `attrInsert` reports a previous value exactly when the key was present. -/
theorem attrInsert_isSome (m : AttrMap) (k : String × Option String) (v : String) :
    (attrInsert m k v).1.isSome = true ↔ k ∈ amKeys m := by
  induction m with
  | nil => simp [attrInsert, amKeys]
  | cons e rest ih =>
      obtain ⟨k0, v0⟩ := e
      by_cases hk : k0 = k
      · subst hk
        simp [attrInsert, amKeys]
      · have hk' : ¬(k = k0) := fun hh => hk hh.symm
        simp only [attrInsert, if_neg hk, amKeys, List.map_cons, List.mem_cons]
        simp only [amKeys] at ih
        rw [ih]
        simp [hk']

/-- The inserted key is always among the keys afterwards. -/
theorem attrInsert_self_mem (m : AttrMap) (k : String × Option String) (v : String) :
    k ∈ amKeys (attrInsert m k v).2 := by
  induction m with
  | nil => simp [attrInsert, amKeys]
  | cons e rest ih =>
      obtain ⟨k0, v0⟩ := e
      by_cases hk : k0 = k
      · subst hk
        simp [attrInsert, amKeys]
      · simp only [attrInsert, if_neg hk, amKeys, List.map_cons, List.mem_cons]
        simp only [amKeys] at ih
        exact Or.inr ih

/-- `attrInsert` never removes a key. -/
theorem attrInsert_mem_mono (m : AttrMap) (k k' : String × Option String)
    (v : String) (h : k' ∈ amKeys m) : k' ∈ amKeys (attrInsert m k v).2 := by
  induction m with
  | nil => simp [amKeys] at h
  | cons e rest ih =>
      obtain ⟨k0, v0⟩ := e
      by_cases hk : k0 = k
      · subst hk
        simp [attrInsert, amKeys] at h ⊢
        exact h
      · simp only [attrInsert, if_neg hk, amKeys, List.map_cons, List.mem_cons] at h ⊢
        rcases h with h | h
        · exact Or.inl h
        · simp only [amKeys] at ih
          exact Or.inr (ih h)

/-- An `Except` that `isOk` is an `ok`. -/
theorem isOk_exists {ε α : Type} (x : Except ε α) (h : x.isOk = true) :
    ∃ a, x = Except.ok a := by
  cases x with
  | ok a => exact ⟨a, rfl⟩
  | error e => simp [Except.isOk, Except.toBool] at h

/-- If every attribute prefix resolves but the resolved keys are not
pairwise distinct (or collide with a key already in the accumulator), the
attribute-assembly loop of `in_tag` fails with `DuplicateAttribute`. -/
theorem resolveAttrs_dup (stack : List Frame) :
    ∀ (attrs : List (String × Option String × String)) (m : AttrMap),
      (∀ a ∈ attrs, (attrNsRes stack a.2.1).isOk = true) →
      (¬ (attrs.map
            (fun a => (a.1, (attrNsRes stack a.2.1).toOption.join))).Nodup ∨
        ∃ a ∈ attrs,
          (a.1, (attrNsRes stack a.2.1).toOption.join) ∈ amKeys m) →
      resolveAttrs stack attrs m =
        Except.error ParserErrorKind.DuplicateAttribute := by
  intro attrs
  induction attrs with
  | nil =>
      intro m hres hdup
      rcases hdup with hd | ⟨a, ha, _⟩
      · exact absurd List.nodup_nil hd
      · exact absurd ha (List.not_mem_nil a)
  | cons a rest ih =>
      intro m hres hdup
      obtain ⟨nm, pfx, v⟩ := a
      obtain ⟨ns, hns⟩ := isOk_exists _ (hres (nm, pfx, v) (List.mem_cons_self _ _))
      simp only [resolveAttrs, hns]
      by_cases hmem : (nm, ns) ∈ amKeys m
      · rw [if_pos ((attrInsert_isSome m (nm, ns) v).mpr hmem)]
      · have hnot : ¬ (attrInsert m (nm, ns) v).1.isSome = true :=
          fun hcontra => hmem ((attrInsert_isSome m (nm, ns) v).mp hcontra)
        rw [if_neg hnot]
        apply ih
        · intro b hb
          exact hres b (List.mem_cons_of_mem _ hb)
        · have hkey : ((nm, pfx, v).1,
              (attrNsRes stack (nm, pfx, v).2.1).toOption.join) = (nm, ns) := by
            simp [hns, Except.toOption]
          rcases hdup with hd | ⟨b, hb, hbm⟩
          · rw [List.map_cons, List.nodup_cons, not_and_or] at hd
            rcases hd with hd | hd
            · push_neg at hd
              rw [hkey] at hd
              obtain ⟨w, hw, hwk⟩ := List.mem_map.mp hd
              exact Or.inr ⟨w, hw, hwk ▸ attrInsert_self_mem m (nm, ns) v⟩
            · exact Or.inl hd
          · rcases List.mem_cons.mp hb with rfl | hb'
            · rw [hkey] at hbm
              exact absurd hbm hmem
            · exact Or.inr ⟨b, hb', attrInsert_mem_mono m (nm, ns) _ v hbm⟩

/-- C6 counterexample: in `<q:a x='1' x='2'/>` the two `x` attributes
resolve to the same pair `("x", none)` (an unprefixed attribute resolves
to no namespace, second conjunct), yet the tokenizer reports
`UnboundNsPrefixInTagName` - the unbound tag prefix `q` takes precedence -
and not `DuplicateAttribute` as the claim requires. -/
theorem C6_counterexample :
    run pInit (charBytes
      ['<', 'q', ':', 'a', ' ', 'x', '=', '\'', '1', '\'', ' ', 'x', '=',
       '\'', '2', '\'', '/', '>']) =
      [Except.error { line := 1, col := 17,
                      kind := ParserErrorKind.UnboundNsPrefixInTagName }] ∧
    attrNsRes pInit.namespaces none = Except.ok none ∧
    ParserErrorKind.UnboundNsPrefixInTagName ≠
      ParserErrorKind.DuplicateAttribute :=
  ⟨by rfl, by rfl, by decide⟩

/-- C6 (amended): when a start tag reaches its closing `/` or `>` with its
own prefix bound and every attribute prefix bound, and two of its
attributes resolve to the same (local name, namespace) pair, the tokenizer
emits no `ElementStart` but exactly one `DuplicateAttribute` error carrying
the line and (1-based, byte-counting) column of the closing character, and
the stream ends there.  (If the tag's own prefix is unbound,
`UnboundNsPrefixInTagName` is reported instead - the tag name is resolved
before any attribute, as the counterexample shows.) -/
theorem C6_amended_duplicate_attribute (p : Parser) (b : Nat) (rest : List Nat)
    (h0 : p.has_error = false) (h1 : p.st = State.InTag)
    (h2 : b = 47 ∨ b = 62)
    (h3 : (resolveTagNs p.namespaces (p.name.getD (none, "")).1).isOk = true)
    (h4 : ∀ a ∈ p.attributes, (attrNsRes p.namespaces a.2.1).isOk = true)
    (h5 : ¬ (p.attributes.map
        (fun a => (a.1, (attrNsRes p.namespaces a.2.1).toOption.join))).Nodup) :
    run p (b :: rest) =
      [Except.error { line := p.line, col := p.col + 1,
                      kind := ParserErrorKind.DuplicateAttribute }] := by
  have hc : byteChar b = '/' ∨ byteChar b = '>' := by
    rcases h2 with rfl | rfl
    · exact Or.inl rfl
    · exact Or.inr rfl
  have hnl : ¬ byteChar b = '\n' := by
    rcases h2 with rfl | rfl <;> decide
  have hadv : advance p (byteChar b) = { p with col := p.col + 1 } := by
    rw [advance, if_neg hnl]
  have hpc : parse_character (advance p (byteChar b)) (byteChar b) =
      Except.error { line := p.line, col := p.col + 1,
                     kind := ParserErrorKind.DuplicateAttribute } := by
    rw [hadv]
    have hst2 : ({ p with col := p.col + 1 } : Parser).st = State.InTag := h1
    simp only [parse_character, hst2]
    unfold in_tag
    rw [if_pos hc]
    obtain ⟨ns, hns⟩ := isOk_exists _ h3
    dsimp only
    rw [hns, resolveAttrs_dup p.namespaces p.attributes [] h4 (Or.inl h5)]
    rw [h1]
    rfl
  rw [run, if_neg (by rw [h0]; exact Bool.false_ne_true), hpc,
    run_poisoned _ _ rfl]

/-- C6 witness: the duplicate-attribute theorem applied to the concrete
state the parser is in after reading `<a x='1' x='2'` (two attributes both
resolving to `("x", none)`), fed the closing bytes `/>`. -/
theorem C6_witness :
    run ({ line := 1, col := 14, has_error := false, buf := [],
           namespaces := [[], initFrame],
           attributes := [("x", none, "1"), ("x", none, "2")],
           st := State.InTag, name := some (none, "a"), attr := none,
           delim := none, level := 0 } : Parser) [47, 62] =
      [Except.error { line := 1, col := 15,
                      kind := ParserErrorKind.DuplicateAttribute }] :=
  C6_amended_duplicate_attribute _ 47 [62] rfl rfl (Or.inl rfl) (by rfl)
    (by decide) (by decide)

/-- Driver step producing no event. -/
theorem run_step_none (p p2 : Parser) (b : Nat) (rest : List Nat)
    (he : p.has_error = false)
    (h : parse_character (advance p (byteChar b)) (byteChar b) =
      Except.ok (none, p2)) :
    run p (b :: rest) = run p2 rest := by
  rw [run, if_neg (by rw [he]; exact Bool.false_ne_true), h]

/-- Driver step producing an event. -/
theorem run_step_event (p p2 : Parser) (b : Nat) (ev : Event) (rest : List Nat)
    (he : p.has_error = false)
    (h : parse_character (advance p (byteChar b)) (byteChar b) =
      Except.ok (some ev, p2)) :
    run p (b :: rest) = Except.ok ev :: run p2 rest := by
  rw [run, if_neg (by rw [he]; exact Bool.false_ne_true), h]

/-- The closing scan of `in_cdata` over a character sequence: tracks the
`u8` run counter of consecutive `]` characters and demands that no `>` is
reached while the counter is at least 2 (which would close the section
early). -/
def scanOk : Nat → List Char → Bool
  | _, [] => true
  | lv, c :: rest =>
      if c = ']' then scanOk ((lv + 1) % 256) rest
      else if c = '>' then decide (lv < 2) && scanOk 0 rest
      else scanOk 0 rest

/-- The value of the `u8` run counter of `in_cdata` after a character
sequence. -/
def scanLevel : Nat → List Char → Nat
  | lv, [] => lv
  | lv, c :: rest =>
      if c = ']' then scanLevel ((lv + 1) % 256) rest else scanLevel 0 rest

/-- An arbitrary parser state inside a CDATA section (used to run the
CDATA induction with every other field symbolic). -/
def mkCd (ln cl : Nat) (bf : List Char) (nss : List Frame)
    (ats : List (String × Option String × String))
    (nm at0 : Option (Option String × String)) (dl : Option Char)
    (lv : Nat) : Parser :=
  { line := ln, col := cl, has_error := false, buf := bf, namespaces := nss,
    attributes := ats, st := State.InCDATA, name := nm, attr := at0,
    delim := dl, level := lv }

/-- Inside a CDATA section: if the content never closes the section early
and the final run counter admits the two `]` of the terminator, feeding
the content followed by `]]>` emits exactly one CDATA event whose text is
the pending buffer extended by the content - exactly two characters (the
`]]` of the terminator) are trimmed. -/
theorem cdata_run : ∀ (content : List Nat) (ln cl : Nat) (bf : List Char)
    (nss : List Frame) (ats : List (String × Option String × String))
    (nm at0 : Option (Option String × String)) (dl : Option Char) (lv : Nat),
    scanOk lv (content.map byteChar) = true →
    2 ≤ (scanLevel lv (content.map byteChar) + 2) % 256 →
    run (mkCd ln cl bf nss ats nm at0 dl lv) (content ++ [93, 93, 62]) =
      [Except.ok (Event.CDATA (String.mk (bf ++ content.map byteChar)))] := by
  intro content
  induction content with
  | nil =>
      intro ln cl bf nss ats nm at0 dl lv hok hlev
      simp only [List.map_nil, scanLevel] at hlev
      have s1 : parse_character
          (advance (mkCd ln cl bf nss ats nm at0 dl lv) (byteChar 93))
          (byteChar 93) =
          Except.ok (none,
            mkCd ln (cl + 1) (bf ++ [']']) nss ats nm at0 dl
              ((lv + 1) % 256)) := rfl
      have s2 : parse_character
          (advance (mkCd ln (cl + 1) (bf ++ [']']) nss ats nm at0 dl
            ((lv + 1) % 256)) (byteChar 93)) (byteChar 93) =
          Except.ok (none,
            mkCd ln (cl + 2) ((bf ++ [']']) ++ [']']) nss ats nm at0 dl
              (((lv + 1) % 256 + 1) % 256)) := rfl
      have hlv2 : 2 ≤ ((lv + 1) % 256 + 1) % 256 := by omega
      have s3 : parse_character
          (advance (mkCd ln (cl + 2) ((bf ++ [']']) ++ [']']) nss ats nm at0
            dl (((lv + 1) % 256 + 1) % 256)) (byteChar 62)) (byteChar 62) =
          Except.ok (some (Event.CDATA (String.mk bf)),
            { line := ln, col := cl + 3, has_error := false, buf := [],
              namespaces := nss, attributes := ats, st := State.OutsideTag,
              name := nm, attr := at0, delim := dl, level := 0 }) := by
        show in_cdata (mkCd ln (cl + 3) ((bf ++ [']']) ++ [']']) nss ats nm
          at0 dl (((lv + 1) % 256 + 1) % 256)) '>' = _
        unfold in_cdata mkCd
        rw [if_neg (by decide), if_pos ⟨rfl, hlv2⟩]
        have ht : ((bf ++ [']']) ++ [']']).take
            (((bf ++ [']']) ++ [']']).length - 2) = bf := by
          rw [List.append_assoc]
          apply List.take_left'
          simp
        rw [ht]
      rw [List.nil_append, run_step_none _ _ _ _ rfl s1,
        run_step_none _ _ _ _ rfl s2, run_step_event _ _ _ _ _ rfl s3]
      simp [run]
  | cons b bs ih =>
      intro ln cl bf nss ats nm at0 dl lv hok hlev
      rw [List.cons_append]
      simp only [List.map_cons, scanOk] at hok
      simp only [List.map_cons, scanLevel] at hlev
      by_cases hb : byteChar b = ']'
      · rw [if_pos hb] at hok
        rw [if_pos hb] at hlev
        have s : parse_character
            (advance (mkCd ln cl bf nss ats nm at0 dl lv) (byteChar b))
            (byteChar b) =
            Except.ok (none,
              mkCd ln (cl + 1) (bf ++ [byteChar b]) nss ats nm at0 dl
                ((lv + 1) % 256)) := by
          rw [hb]
          rfl
        rw [run_step_none _ _ _ _ rfl s,
          ih ln (cl + 1) (bf ++ [byteChar b]) nss ats nm at0 dl
            ((lv + 1) % 256) hok hlev]
        simp
      · rw [if_neg hb] at hok
        rw [if_neg hb] at hlev
        by_cases hb2 : byteChar b = '>'
        · rw [if_pos hb2, Bool.and_eq_true, decide_eq_true_eq] at hok
          have s : parse_character
              (advance (mkCd ln cl bf nss ats nm at0 dl lv) (byteChar b))
              (byteChar b) =
              Except.ok (none,
                mkCd ln (cl + 1) (bf ++ [byteChar b]) nss ats nm at0 dl 0) := by
            have hn : ¬ byteChar b = '\n' := by rw [hb2]; decide
            rw [advance, if_neg hn]
            show in_cdata (mkCd ln (cl + 1) bf nss ats nm at0 dl lv)
              (byteChar b) = _
            unfold in_cdata mkCd
            dsimp only
            rw [if_neg hb,
              if_neg (fun hand => absurd hand.2 (by omega))]
          rw [run_step_none _ _ _ _ rfl s,
            ih ln (cl + 1) (bf ++ [byteChar b]) nss ats nm at0 dl 0
              hok.2 hlev]
          simp
        · rw [if_neg hb2] at hok
          by_cases hn : byteChar b = '\n'
          · have s : parse_character
                (advance (mkCd ln cl bf nss ats nm at0 dl lv) (byteChar b))
                (byteChar b) =
                Except.ok (none,
                  mkCd (ln + 1) 0 (bf ++ [byteChar b]) nss ats nm at0 dl 0) := by
              rw [advance, if_pos hn]
              show in_cdata (mkCd (ln + 1) 0 bf nss ats nm at0 dl lv)
                (byteChar b) = _
              unfold in_cdata mkCd
              rw [if_neg hb, if_neg (fun hand => hb2 hand.1)]
            rw [run_step_none _ _ _ _ rfl s,
              ih (ln + 1) 0 (bf ++ [byteChar b]) nss ats nm at0 dl 0 hok hlev]
            simp
          · have s : parse_character
                (advance (mkCd ln cl bf nss ats nm at0 dl lv) (byteChar b))
                (byteChar b) =
                Except.ok (none,
                  mkCd ln (cl + 1) (bf ++ [byteChar b]) nss ats nm at0 dl 0) := by
              rw [advance, if_neg hn]
              show in_cdata (mkCd ln (cl + 1) bf nss ats nm at0 dl lv)
                (byteChar b) = _
              unfold in_cdata mkCd
              rw [if_neg hb, if_neg (fun hand => hb2 hand.1)]
            rw [run_step_none _ _ _ _ rfl s,
              ih ln (cl + 1) (bf ++ [byteChar b]) nss ats nm at0 dl 0 hok hlev]
            simp

/-- C7 counterexample: feeding `<![CDATA[a]]]>` the parser sits in the
CDATA state with accumulated buffer `a]]]` and tracked `]`-run 3 just
before the `>` (so at least two `]` precede it and the section closes),
but the emitted text is `a]` - the buffer minus exactly two characters -
whereas trimming the tracked run of three `]` off the buffer, as the claim
states, would emit `a`. -/
theorem C7_counterexample :
    (runState pInit (strBytes "<![CDATA[a]]]")).st = State.InCDATA ∧
    (runState pInit (strBytes "<![CDATA[a]]]")).buf = ['a', ']', ']', ']'] ∧
    (runState pInit (strBytes "<![CDATA[a]]]")).level = 3 ∧
    run pInit (strBytes "<![CDATA[a]]]>") =
      [Except.ok (Event.CDATA "a]")] ∧
    String.mk (['a', ']', ']', ']'].take (4 - 3)) ≠ "a]" :=
  ⟨by rfl, by rfl, by rfl, by rfl, by decide⟩

/-- C7 (amended): the run counter of consecutive `]` characters is a `u8`
(mod 256); a `>` closes the section exactly when the counter is at least
2, and exactly two characters - the `]]` of the terminator - are trimmed
off the buffer.  Consequently, for content that never reaches a `>` with
counter at least 2 (`scanOk`) and whose trailing `]`-run admits the
terminator (`scanLevel`), the emitted CDATA text is exactly the content
between `<![CDATA[` and the terminating `]]>`.  For content with fewer
than 254 consecutive `]` anywhere these side conditions just say that the
content does not contain `]]>`. -/
theorem C7_amended_cdata (content : List Nat)
    (h1 : scanOk 0 (content.map byteChar) = true)
    (h2 : 2 ≤ (scanLevel 0 (content.map byteChar) + 2) % 256) :
    run pInit (strBytes "<![CDATA[" ++ (content ++ [93, 93, 62])) =
      [Except.ok (Event.CDATA (String.mk (content.map byteChar)))] := by
  have hopen : run pInit (strBytes "<![CDATA[" ++ (content ++ [93, 93, 62])) =
      run (mkCd 1 9 [] [initFrame] [] none none none 0)
        (content ++ [93, 93, 62]) := rfl
  rw [hopen, cdata_run content 1 9 [] [initFrame] [] none none none 0 h1 h2]
  simp [mkCd]

/-- C7 witness: the amended theorem applied to the content `a]` (bytes
`97 93`), whose CDATA section `<![CDATA[a]]]>` emits exactly `a]`. -/
theorem C7_witness :
    run pInit (strBytes "<![CDATA[" ++ ([97, 93] ++ [93, 93, 62])) =
      [Except.ok (Event.CDATA (String.mk ([97, 93].map byteChar)))] :=
  C7_amended_cdata [97, 93] (by decide) (by decide)

/-- C8: the driver consumes exactly one byte per state-machine transition
(last conjunct: one `advance` plus one `parse_character` per input byte); a
newline increments the line counter and resets the column, every other
byte increments the column; the counters start at line 1, column 0, making
reported positions 1-based; and every error returned by a state handler
carries the line and column of the character being processed. -/
theorem C8_position_tracking :
    (∀ p : Parser, advance p '\n' = { p with line := p.line + 1, col := 0 }) ∧
    (∀ (p : Parser) (c : Char), c ≠ '\n' →
        advance p c = { p with col := p.col + 1 }) ∧
    pInit.line = 1 ∧ pInit.col = 0 ∧
    (∀ (p : Parser) (c : Char) (e : ParserError),
        parse_character p c = Except.error e →
        e.line = p.line ∧ e.col = p.col) ∧
    (∀ (p : Parser) (b : Nat) (rest : List Nat), p.has_error = false →
        run p (b :: rest) =
          match parse_character (advance p (byteChar b)) (byteChar b) with
          | Except.ok (none, p2) => run p2 rest
          | Except.ok (some ev, p2) => Except.ok ev :: run p2 rest
          | Except.error err =>
              Except.error err ::
                run { advance p (byteChar b) with has_error := true } rest) := by
  refine ⟨?_, ?_, rfl, rfl, ?_, ?_⟩
  · intro p
    rw [advance, if_pos rfl]
  · intro p c h
    rw [advance, if_neg h]
  · intro p c e h
    unfold parse_character at h
    split at h <;>
      (simp only [outside_tag, tag_opened, in_processing_instructions,
         in_tag_name, in_close_tag_name, in_tag, in_attr_name, in_attr_value,
         expect_delimiter, expect_close, expect_space_or_close,
         in_exclamation_mark, in_cdata_opening, in_cdata, in_comment_opening,
         in_comment1, in_comment2, in_doctype, perror] at h;
       repeat' split at h) <;>
      (first
        | exact Except.noConfusion h
        | (injection h with h; subst h; exact ⟨rfl, rfl⟩))
  · intro p b rest h
    rw [run, if_neg (by rw [h]; exact Bool.false_ne_true)]

/-- C8 witness: a non-newline byte advances only the column, and a
concrete failing transition (an `x` after `<!`) reports the position of
the offending character. -/
theorem C8_witness :
    advance pInit 'x' = { pInit with col := pInit.col + 1 } ∧
    (({ line := 1, col := 3,
        kind := ParserErrorKind.MalformedXml } : ParserError).line =
        ({ pInit with st := State.InExclamationMark,
                      col := 3 } : Parser).line ∧
      ({ line := 1, col := 3,
         kind := ParserErrorKind.MalformedXml } : ParserError).col =
        ({ pInit with st := State.InExclamationMark,
                      col := 3 } : Parser).col) :=
  ⟨C8_position_tracking.2.1 pInit 'x' (by decide),
   C8_position_tracking.2.2.2.2.1
     { pInit with st := State.InExclamationMark, col := 3 } 'x'
     { line := 1, col := 3, kind := ParserErrorKind.MalformedXml } (by rfl)⟩
